import Mathlib

/-!
Verification of the core of `one-million-sliders`: a shared bitmap of
8,000,000 bits (1,000,000 slider bytes) stored in 128-byte chunks and mutated
by `toggle` / `set_byte`, with running aggregate counters (`bits_set`,
`bytes_sum`), a 21-byte binary mutation log, a per-chunk coalescing
broadcaster, and HTTP range validation.

The Rust sources (`src/shared_bitmap.rs`, `src/log.rs`, `src/main.rs`) are
shallowly embedded: byte arrays become `List Nat` of bytes (< 256), the
atomic u64 counters become `Nat` with explicit wraparound `% 2^64`, `as u64`
sign extension of an `i32` delta becomes `Int.emod` by `2^64`, and the
writer-loop / coalescer-loop bodies become pure step functions.
-/

namespace OneMillionSliders

/-- `NUM_SLIDERS` from `main.rs`: one byte per slider. -/
def NUM_SLIDERS : Nat := 1000000

/-- `NUM_CHECKBOXES = NUM_SLIDERS * 8` from `main.rs` (the board's bit count). -/
def NUM_CHECKBOXES : Nat := NUM_SLIDERS * 8

/-- `CHUNK_BYTES` from `shared_bitmap.rs`. -/
def CHUNK_BYTES : Nat := 128

/-- `CHUNK_BITS = CHUNK_BYTES * 8` from `shared_bitmap.rs`. -/
def CHUNK_BITS : Nat := CHUNK_BYTES * 8

/-- Rust `usize::div_ceil` (for a positive divisor). -/
def divCeil (a b : Nat) : Nat := (a + b - 1) / b

/-- `NUM_CHUNKS = TOTAL_BITS.div_ceil(CHUNK_BITS)` from `shared_bitmap.rs`,
where `TOTAL_BITS = NUM_CHECKBOXES`. -/
def NUM_CHUNKS : Nat := divCeil NUM_CHECKBOXES CHUNK_BITS

/-- Size in bytes of the memory-mapped bitmap file:
`NUM_CHUNKS as u64 * CHUNK_BYTES as u64` (`set_len` in `_load_or_create`). -/
def MAP_BYTES : Nat := NUM_CHUNKS * CHUNK_BYTES

/-- `u8::count_ones`: popcount of an 8-bit value (8 divide-by-two steps). -/
def popcountAux : Nat → Nat → Nat
  | 0, _ => 0
  | fuel + 1, n => n % 2 + popcountAux fuel (n / 2)

/-- `u8::count_ones` on a byte value (< 256). -/
def popcount (n : Nat) : Nat := popcountAux 8 n

/-- The modulus of a 64-bit counter. -/
def U64MOD : Nat := 2 ^ 64

/-- Rust `<i32> as u64`: sign-extends, i.e. takes the two's-complement
representative of the signed value modulo `2^64`. -/
def u64ofInt (i : Int) : Nat := (i % (U64MOD : Int)).toNat

/-- `AtomicU64::fetch_add` result: wrapping 64-bit addition. -/
def fetchAdd (a d : Nat) : Nat := (a + d) % U64MOD

example : popcount 255 = 8 := by decide
example : popcount 5 = 2 := by decide
example : u64ofInt (-1) = 2 ^ 64 - 1 := by decide
example : fetchAdd 3 (u64ofInt (-1)) = 2 := by decide

-- Wrapping add of a sign-extended delta acts as exact signed addition
-- whenever the mathematical result is in range.
theorem fetchAdd_delta (S : Nat) (d : Int)
    (h0 : 0 ≤ (S : Int) + d) (h1 : (S : Int) + d < (U64MOD : Int)) :
    fetchAdd S (u64ofInt d) = ((S : Int) + d).toNat := by
  unfold fetchAdd u64ofInt U64MOD at *
  omega

-- Wrapping add of a sign-extended delta, viewed in `Int`, is addition
-- modulo `2^64` (no range assumptions needed).
theorem fetchAdd_emod (S : Nat) (d : Int) :
    (fetchAdd S (u64ofInt d) : Int) = ((S : Int) + d) % (U64MOD : Int) := by
  unfold fetchAdd u64ofInt U64MOD
  omega

/-! ## Chunk (`src/shared_bitmap.rs`)

A chunk is 128 atomically-mutable bytes; we model its byte values as a
`List Nat` (each element < 256). -/

namespace Chunk

/-- `Chunk::index_mask`: `index % CHUNK_BITS`, byte index `index / 8`,
mask `1 << (index % 8)`. -/
def index_mask (index : Nat) : Nat × Nat :=
  let index := index % CHUNK_BITS
  let byte_index := index / 8
  let bit_index := index % 8
  (byte_index, 1 <<< bit_index)

/-- `Chunk::toggle`: XORs the selected byte with the mask, returns the new
bytes and whether the bit was set before (`(orig & mask) != 0`). -/
def toggle (c : List Nat) (index : Nat) : List Nat × Bool :=
  let (byte_index, mask) := index_mask index
  let orig := c.getD byte_index 0
  (c.set byte_index (orig ^^^ mask), (orig &&& mask) != 0)

/-- `Chunk::set_byte`: swaps the byte at `index`, returning the new bytes and
the previous byte value. -/
def set_byte (c : List Nat) (index : Nat) (byte : Nat) : List Nat × Nat :=
  (c.set index byte, c.getD index 0)

end Chunk

/-! ## SharedBitmap (`src/shared_bitmap.rs`)

The mapped file is one flat byte list of length `MAP_BYTES`
(`raw_chunks` casts it to `NUM_CHUNKS` chunks of 128 bytes); the two
aggregate counters are wrapping 64-bit naturals. -/

structure BitmapState where
  bytes : List Nat
  bits_set : Nat
  bytes_sum : Nat
deriving Repr, DecidableEq

/-- Sum of `count_ones` over the mapped bytes (the initial `bits_set` scan in
`_load_or_create`). -/
def popSum (l : List Nat) : Nat := (l.map popcount).sum

/-- Sum of the mapped bytes (the initial `bytes_sum` scan in
`_load_or_create`: `map.iter().copied().map(u64::from).sum()`). -/
def byteSum (l : List Nat) : Nat := (l.map (fun b => b)).sum

/-- A freshly loaded `SharedBitmap`: counters computed by scanning the map. -/
def initState (bytes : List Nat) : BitmapState :=
  { bytes := bytes, bits_set := popSum bytes, bytes_sum := byteSum bytes }

theorem initState_bytes (l : List Nat) : (initState l).bytes = l := rfl

theorem initState_bits_set (l : List Nat) : (initState l).bits_set = popSum l := rfl

theorem initState_bytes_sum (l : List Nat) : (initState l).bytes_sum = byteSum l := rfl

namespace SharedBitmap

/-- `chunk_notify(bit_index / CHUNK_BITS)` indexes `raw_chunks()`, which has
`NUM_CHUNKS` elements: the call panics iff the chunk index is out of range. -/
def togglePanics (bit_index : Nat) : Prop :=
  NUM_CHUNKS ≤ bit_index / CHUNK_BITS

instance (i : Nat) : Decidable (togglePanics i) := by
  unfold togglePanics; infer_instance

/-- `chunk_notify(index / CHUNK_BYTES)` in `set_byte` panics iff the chunk
index is out of range. -/
def setBytePanics (index : Nat) : Prop :=
  NUM_CHUNKS ≤ index / CHUNK_BYTES

instance (i : Nat) : Decidable (setBytePanics i) := by
  unfold setBytePanics; infer_instance

/-- The flat-map byte index mutated by `SharedBitmap::toggle(bit_index)`:
chunk `bit_index / CHUNK_BITS`, byte `index_mask(bit_index % CHUNK_BITS).0`
within it. -/
def toggleByteIndex (bit_index : Nat) : Nat :=
  bit_index / CHUNK_BITS * CHUNK_BYTES + (Chunk.index_mask (bit_index % CHUNK_BITS)).1

/-- `SharedBitmap::toggle`: toggles the bit in its chunk, then
`bits_set.fetch_add((if prev_bit { -1 } else { 1 }) as u64)`.
`bytes_sum` is not touched. -/
def toggle (st : BitmapState) (bit_index : Nat) : BitmapState :=
  let chunk_index := bit_index / CHUNK_BITS
  let inner := bit_index % CHUNK_BITS
  let (byte_index, mask) := Chunk.index_mask inner
  let g := chunk_index * CHUNK_BYTES + byte_index
  let orig := st.bytes.getD g 0
  let prev_bit := (orig &&& mask) != 0
  let diff : Int := if prev_bit then -1 else 1
  { bytes := st.bytes.set g (orig ^^^ mask)
    bits_set := fetchAdd st.bits_set (u64ofInt diff)
    bytes_sum := st.bytes_sum }

/-- `SharedBitmap::set_byte`: swaps the byte in its chunk, then
`bits_set.fetch_add((new.count_ones() - prev.count_ones()) as u64)` and
`bytes_sum.fetch_add((new - prev) as u64)` (sign-extended wrapping adds). -/
def set_byte (st : BitmapState) (index : Nat) (byte : Nat) : BitmapState :=
  let chunk_index := index / CHUNK_BYTES
  let inner_idx := index % CHUNK_BYTES
  let g := chunk_index * CHUNK_BYTES + inner_idx
  let (bytes, prev) := Chunk.set_byte (st.bytes) g byte
  let bit_diff : Int := (popcount byte : Int) - (popcount prev : Int)
  let diff : Int := (byte : Int) - (prev : Int)
  { bytes := bytes
    bits_set := fetchAdd st.bits_set (u64ofInt bit_diff)
    bytes_sum := fetchAdd st.bytes_sum (u64ofInt diff) }

end SharedBitmap

/-- One mutation operation against the `SharedBitmap`. -/
inductive Op where
  | toggle (bit_index : Nat)
  | set_byte (index : Nat) (byte : Nat)
deriving Repr, DecidableEq

/-- Validity as enforced by the HTTP handlers in `main.rs`
(`idx < NUM_CHECKBOXES` for toggle, `idx < NUM_SLIDERS` and a `u8` value for
set_byte). -/
def Op.Valid : Op → Prop
  | .toggle i => i < NUM_CHECKBOXES
  | .set_byte i v => i < NUM_SLIDERS ∧ v < 256

instance (op : Op) : Decidable op.Valid := by
  cases op <;> simp only [Op.Valid] <;> infer_instance

/-- Apply one operation. -/
def applyOp (st : BitmapState) : Op → BitmapState
  | .toggle i => SharedBitmap.toggle st i
  | .set_byte i v => SharedBitmap.set_byte st i v

/-- Apply a finite sequence of operations in order (the quiescent outcome of
running them to completion). -/
def applyOps (st : BitmapState) (ops : List Op) : BitmapState :=
  ops.foldl applyOp st

example : NUM_CHUNKS = 7813 := by decide
example : MAP_BYTES = 1000064 := by decide
example :
    (SharedBitmap.set_byte (initState [0, 3]) 1 255).bytes = [0, 255] := by decide
example :
    (SharedBitmap.set_byte (initState [0, 3]) 1 255).bits_set = 8 := by decide
example :
    (SharedBitmap.set_byte (initState [0, 3]) 1 255).bytes_sum = 255 := by decide
example :
    (SharedBitmap.toggle (initState [0, 3]) 0).bytes = [1, 3] := by decide
example :
    (SharedBitmap.toggle (initState [0, 3]) 1).bits_set = 2 + 1 := by decide
example :
    (SharedBitmap.toggle (initState [5, 3]) 0).bits_set = 4 - 1 := by decide
example :
    (SharedBitmap.toggle (initState [5, 3]) 0).bytes_sum = 8 := by decide

/-! ## Helper lemmas -/

theorem map_sum_set (f : Nat → Nat) (v : Nat) :
    ∀ (l : List Nat) (i : Nat), i < l.length →
      ((l.set i v).map f).sum + f (l.getD i 0) = (l.map f).sum + f v
  | [], i, h => by simp at h
  | a :: l, 0, _ => by simp [Nat.add_comm, Nat.add_left_comm]
  | a :: l, i + 1, h => by
    have ih := map_sum_set f v l i (by simpa using h)
    simp only [List.set, List.map, List.sum_cons, List.getD_cons_succ]
    omega

theorem getD_le_map_sum (f : Nat → Nat) :
    ∀ (l : List Nat) (i : Nat), i < l.length → f (l.getD i 0) ≤ (l.map f).sum
  | [], i, h => by simp at h
  | a :: l, 0, _ => by simp
  | a :: l, i + 1, h => by
    have ih := getD_le_map_sum f l i (by simpa using h)
    simp only [List.map, List.sum_cons, List.getD_cons_succ]
    omega

theorem map_sum_le (f : Nat → Nat) (B : Nat) :
    ∀ (l : List Nat), (∀ b ∈ l, f b ≤ B) → (l.map f).sum ≤ B * l.length
  | [], _ => by simp
  | a :: l, h => by
    have ih := map_sum_le f B l (fun b hb => h b (List.mem_cons_of_mem a hb))
    have ha := h a (List.mem_cons_self a l)
    simp only [List.map, List.sum_cons, List.length_cons]
    calc f a + (l.map f).sum ≤ B + B * l.length := by omega
    _ = B * (l.length + 1) := by ring

theorem getD_set_self (l : List Nat) (i v : Nat) (h : i < l.length) :
    (l.set i v).getD i 0 = v := by
  rw [List.getD_eq_getElem _ 0 (by simpa using h)]
  simp [List.getElem_set_self]

/-- Bounds on the elements of a list survive `List.set` of a bounded value. -/
theorem mem_set_lt (l : List Nat) (i v B : Nat) (hl : ∀ b ∈ l, b < B) (hv : v < B) :
    ∀ b ∈ l.set i v, b < B := by
  intro b hb
  rcases List.mem_or_eq_of_mem_set hb with h | h
  · exact hl b h
  · omega

/-! Facts about single bytes, settled by enumeration over `b < 256`,
`k < 8`. -/

set_option maxRecDepth 4000

theorem pop_xor_mask :
    ∀ b < 256, ∀ k < 8, popcount (b ^^^ (1 <<< k)) =
      if b.testBit k then popcount b - 1 else popcount b + 1 := by decide

theorem pop_pos_of_testBit :
    ∀ b < 256, ∀ k < 8, b.testBit k → 1 ≤ popcount b := by decide

theorem and_mask_ne_zero :
    ∀ b < 256, ∀ k < 8, ((b &&& (1 <<< k)) != 0) = b.testBit k := by decide

theorem xor_mask_lt : ∀ b < 256, ∀ k < 8, b ^^^ (1 <<< k) < 256 := by decide

theorem xor_mask_ne : ∀ b < 256, ∀ k < 8, b ^^^ (1 <<< k) ≠ b := by decide

theorem pop_le_8 : ∀ b < 256, popcount b ≤ 8 := by decide

/-! Closed forms of the two mutation primitives: the chunked index
decomposition collapses to the flat byte index. -/

theorem fetchAdd_lt (a d : Nat) : fetchAdd a d < U64MOD :=
  Nat.mod_lt _ (by decide)

theorem fetchAdd_zero (a : Nat) (h : a < U64MOD) : fetchAdd a 0 = a := by
  unfold fetchAdd U64MOD at *
  omega

theorem set_byte_spec (st : BitmapState) (index v : Nat) :
    SharedBitmap.set_byte st index v =
      { bytes := st.bytes.set index v
        bits_set := fetchAdd st.bits_set
          (u64ofInt ((popcount v : Int) - (popcount (st.bytes.getD index 0) : Int)))
        bytes_sum := fetchAdd st.bytes_sum
          (u64ofInt ((v : Int) - (st.bytes.getD index 0 : Int))) } := by
  have hg : index / CHUNK_BYTES * CHUNK_BYTES + index % CHUNK_BYTES = index := by
    unfold CHUNK_BYTES
    omega
  simp only [SharedBitmap.set_byte, Chunk.set_byte, hg]

theorem toggle_spec (st : BitmapState) (i : Nat) :
    SharedBitmap.toggle st i =
      { bytes := st.bytes.set (i / 8)
          (st.bytes.getD (i / 8) 0 ^^^ (1 <<< (i % 8)))
        bits_set := fetchAdd st.bits_set
          (u64ofInt
            (if (st.bytes.getD (i / 8) 0 &&& (1 <<< (i % 8))) != 0 then -1 else 1))
        bytes_sum := st.bytes_sum } := by
  have e1 : i / CHUNK_BITS * CHUNK_BYTES + i % CHUNK_BITS % CHUNK_BITS / 8 = i / 8 := by
    unfold CHUNK_BITS CHUNK_BYTES
    omega
  have e2 : i % CHUNK_BITS % CHUNK_BITS % 8 = i % 8 := by
    unfold CHUNK_BITS CHUNK_BYTES
    omega
  simp only [SharedBitmap.toggle, Chunk.index_mask, e1, e2]

theorem toggle_bytes (st : BitmapState) (i : Nat) :
    (SharedBitmap.toggle st i).bytes =
      st.bytes.set (i / 8) (st.bytes.getD (i / 8) 0 ^^^ (1 <<< (i % 8))) := by
  rw [toggle_spec]

theorem toggle_bits_set (st : BitmapState) (i : Nat) :
    (SharedBitmap.toggle st i).bits_set =
      fetchAdd st.bits_set
        (u64ofInt
          (if (st.bytes.getD (i / 8) 0 &&& (1 <<< (i % 8))) != 0 then -1 else 1)) := by
  rw [toggle_spec]

theorem toggle_bytes_sum (st : BitmapState) (i : Nat) :
    (SharedBitmap.toggle st i).bytes_sum = st.bytes_sum := by
  rw [toggle_spec]

/-! ## Claims about `Chunk` and `SharedBitmap` mutations -/

/-- C3: for every bit index `i` with `0 ≤ i < 1024`, `Chunk::toggle(i)` XORs
byte `⌊i/8⌋` of the chunk with mask `1 <<< (i % 8)`, and returns `true` iff
that bit was set before the toggle. -/
theorem claim_C3_chunk_toggle (c : List Nat) (i : Nat) (hi : i < CHUNK_BITS)
    (hlen : c.length = CHUNK_BYTES) (hb : ∀ b ∈ c, b < 256) :
    (Chunk.toggle c i).1 = c.set (i / 8) (c.getD (i / 8) 0 ^^^ (1 <<< (i % 8))) ∧
    ((Chunk.toggle c i).2 = true ↔ (c.getD (i / 8) 0).testBit (i % 8)) := by
  have h1024 : i % CHUNK_BITS = i := Nat.mod_eq_of_lt hi
  have hlt : i / 8 < c.length := by
    rw [hlen]
    unfold CHUNK_BITS CHUNK_BYTES at *
    omega
  have hmem : c.getD (i / 8) 0 ∈ c := by
    rw [List.getD_eq_getElem _ 0 hlt]
    exact List.getElem_mem hlt
  have horig := hb _ hmem
  have hk : i % 8 < 8 := Nat.mod_lt _ (by norm_num)
  refine ⟨?_, ?_⟩
  · simp only [Chunk.toggle, Chunk.index_mask, h1024]
  · simp only [Chunk.toggle, Chunk.index_mask, h1024,
      and_mask_ne_zero _ horig _ hk]

/-- Witness for C3 at a concrete chunk (byte 0 is 5, bit 0 toggled). -/
theorem claim_C3_chunk_toggle_witness :
    (Chunk.toggle ((List.replicate 128 0).set 0 5) 0).1 =
      ((List.replicate 128 0).set 0 5).set (0 / 8)
        (((List.replicate 128 0).set 0 5).getD (0 / 8) 0 ^^^ (1 <<< (0 % 8))) ∧
    ((Chunk.toggle ((List.replicate 128 0).set 0 5) 0).2 = true ↔
      (((List.replicate 128 0).set 0 5).getD (0 / 8) 0).testBit (0 % 8)) :=
  claim_C3_chunk_toggle _ 0 (by decide) (by decide) (by decide)

/-- C4: for every valid byte index and value, `SharedBitmap::set_byte` swaps
the byte (the chunk-level swap returns the previous value) and updates
`bits_set` by `popcount(new) − popcount(prev)` and `bytes_sum` by
`new − prev`, each signed delta sign-extended into a wrapping two's-complement
64-bit add — i.e. the new counter is the old one plus the signed delta,
modulo `2^64`. -/
theorem claim_C4_set_byte_deltas (st : BitmapState) (index v : Nat)
    (hidx : index < NUM_SLIDERS) (hv : v < 256) :
    (SharedBitmap.set_byte st index v).bytes = st.bytes.set index v ∧
    (Chunk.set_byte st.bytes index v).2 = st.bytes.getD index 0 ∧
    ((SharedBitmap.set_byte st index v).bits_set : Int) =
      ((st.bits_set : Int) +
        ((popcount v : Int) - (popcount (st.bytes.getD index 0) : Int))) %
        (U64MOD : Int) ∧
    ((SharedBitmap.set_byte st index v).bytes_sum : Int) =
      ((st.bytes_sum : Int) + ((v : Int) - (st.bytes.getD index 0 : Int))) %
        (U64MOD : Int) := by
  rw [set_byte_spec]
  exact ⟨rfl, rfl, fetchAdd_emod _ _, fetchAdd_emod _ _⟩

/-- Witness for C4 at a concrete state (`[0, 3]`-prefixed board model is not
full-size, but C4's conclusion holds for any state; index 1, value 255). -/
theorem claim_C4_set_byte_deltas_witness :
    (SharedBitmap.set_byte (initState [0, 3]) 1 255).bytes =
      (initState [0, 3]).bytes.set 1 255 ∧
    (Chunk.set_byte (initState [0, 3]).bytes 1 255).2 =
      (initState [0, 3]).bytes.getD 1 0 ∧
    ((SharedBitmap.set_byte (initState [0, 3]) 1 255).bits_set : Int) =
      (((initState [0, 3]).bits_set : Int) +
        ((popcount 255 : Int) - (popcount ((initState [0, 3]).bytes.getD 1 0) : Int))) %
        (U64MOD : Int) ∧
    ((SharedBitmap.set_byte (initState [0, 3]) 1 255).bytes_sum : Int) =
      (((initState [0, 3]).bytes_sum : Int) +
        ((255 : Int) - ((initState [0, 3]).bytes.getD 1 0 : Int))) %
        (U64MOD : Int) :=
  claim_C4_set_byte_deltas (initState [0, 3]) 1 255 (by decide) (by decide)

/-- C6: executing `set_byte(b, v)` twice in sequence leaves `bits_set` and
`bytes_sum` unchanged across the second call (its deltas are both zero). -/
theorem claim_C6_set_byte_idempotent (st : BitmapState) (index v : Nat)
    (hidx : index < NUM_SLIDERS) (hlen : st.bytes.length = MAP_BYTES) :
    (SharedBitmap.set_byte (SharedBitmap.set_byte st index v) index v).bits_set =
      (SharedBitmap.set_byte st index v).bits_set ∧
    (SharedBitmap.set_byte (SharedBitmap.set_byte st index v) index v).bytes_sum =
      (SharedBitmap.set_byte st index v).bytes_sum := by
  have hMB : MAP_BYTES = 1000064 := by decide
  have hNS : NUM_SLIDERS = 1000000 := by decide
  have hlt : index < st.bytes.length := by omega
  have hprev : (SharedBitmap.set_byte st index v).bytes.getD index 0 = v := by
    rw [set_byte_spec]
    exact getD_set_self st.bytes index v hlt
  rw [set_byte_spec (SharedBitmap.set_byte st index v), hprev]
  simp only [sub_self, u64ofInt, Int.zero_emod, Int.toNat_zero]
  constructor
  · exact fetchAdd_zero _ (by rw [set_byte_spec st]; exact fetchAdd_lt _ _)
  · exact fetchAdd_zero _ (by rw [set_byte_spec st]; exact fetchAdd_lt _ _)

/-- Witness for C6 at index 0, value 255 on a freshly loaded all-zero board. -/
theorem claim_C6_set_byte_idempotent_witness :
    (SharedBitmap.set_byte
        (SharedBitmap.set_byte (initState (List.replicate MAP_BYTES 0)) 0 255)
        0 255).bits_set =
      (SharedBitmap.set_byte (initState (List.replicate MAP_BYTES 0)) 0 255).bits_set ∧
    (SharedBitmap.set_byte
        (SharedBitmap.set_byte (initState (List.replicate MAP_BYTES 0)) 0 255)
        0 255).bytes_sum =
      (SharedBitmap.set_byte (initState (List.replicate MAP_BYTES 0)) 0 255).bytes_sum :=
  claim_C6_set_byte_idempotent _ 0 255 (by decide) (by simp [initState])

/-! ## C2: out-of-range `toggle` -/

/-- C2 counterexample: `toggle(8_000_000)` (the first out-of-range bit index)
does not fail — `8_000_000 / 1024 = 7812 < NUM_CHUNKS = 7813` — and it
silently mutates the mapped bytes of a freshly loaded all-zero board. -/
theorem claim_C2_counterexample :
    ¬ SharedBitmap.togglePanics 8000000 ∧
    (SharedBitmap.toggle (initState (List.replicate MAP_BYTES 0)) 8000000).bytes ≠
      (initState (List.replicate MAP_BYTES 0)).bytes := by
  refine ⟨by decide, ?_⟩
  have hlt : (1000000 : Nat) < (List.replicate MAP_BYTES (0 : Nat)).length := by
    rw [List.length_replicate]
    decide
  have h0 : (List.replicate MAP_BYTES (0 : Nat)).getD 1000000 0 = 0 := by
    rw [List.getD_eq_getElem _ 0 hlt]
    simp
  have h78 : (8000000 : Nat) / 8 = 1000000 := by norm_num
  have h88 : (8000000 : Nat) % 8 = 0 := by norm_num
  have hby :
      (SharedBitmap.toggle (initState (List.replicate MAP_BYTES 0)) 8000000).bytes =
        (List.replicate MAP_BYTES (0 : Nat)).set 1000000
          ((List.replicate MAP_BYTES (0 : Nat)).getD 1000000 0 ^^^ (1 <<< 0)) := by
    rw [toggle_bytes, initState_bytes, h78, h88]
  intro hEq
  rw [hby, initState_bytes] at hEq
  have h2 := congrArg (fun l => l.getD 1000000 0) hEq
  simp only at h2
  rw [getD_set_self _ _ _ hlt, h0] at h2
  exact absurd h2 (by decide)

/-- C2 amended: `SharedBitmap::toggle(bit_index)` fails (an index-out-of-range
panic on the chunk slice) iff `bit_index ≥ NUM_CHUNKS · CHUNK_BITS =
8,000,512`; for `8,000,000 ≤ bit_index < 8,000,512` the call does not fail and
silently toggles a mapped byte (at flat index `bit_index / 8`, in the mapped
tail beyond the board's 1,000,000 data bytes). -/
theorem claim_C2_toggle_out_of_range (st : BitmapState) (i : Nat)
    (hlen : st.bytes.length = MAP_BYTES) (hb : ∀ b ∈ st.bytes, b < 256)
    (hlo : NUM_CHECKBOXES ≤ i) (hhi : i < NUM_CHUNKS * CHUNK_BITS) :
    (∀ j, SharedBitmap.togglePanics j ↔ NUM_CHUNKS * CHUNK_BITS ≤ j) ∧
    ¬ SharedBitmap.togglePanics i ∧
    NUM_SLIDERS ≤ i / 8 ∧ i / 8 < MAP_BYTES ∧
    (SharedBitmap.toggle st i).bytes ≠ st.bytes := by
  have hC : NUM_CHUNKS * CHUNK_BITS = 8000512 := by decide
  have hCB : NUM_CHECKBOXES = 8000000 := by decide
  have hNS : NUM_SLIDERS = 1000000 := by decide
  have hMB : MAP_BYTES = 1000064 := by decide
  have hiff : ∀ j, SharedBitmap.togglePanics j ↔ NUM_CHUNKS * CHUNK_BITS ≤ j := by
    intro j
    unfold SharedBitmap.togglePanics
    have h1 : NUM_CHUNKS = 7813 := by decide
    have h2 : CHUNK_BITS = 1024 := by decide
    rw [h1, h2]
    omega
  refine ⟨hiff, ?_, by omega, by omega, ?_⟩
  · rw [hiff]
    omega
  · have hlt : i / 8 < st.bytes.length := by omega
    have hmem : st.bytes.getD (i / 8) 0 ∈ st.bytes := by
      rw [List.getD_eq_getElem _ 0 hlt]
      exact List.getElem_mem hlt
    have horig := hb _ hmem
    have hk : i % 8 < 8 := Nat.mod_lt _ (by norm_num)
    rw [toggle_bytes]
    intro hEq
    have := congrArg (fun l => l.getD (i / 8) 0) hEq
    simp only at this
    rw [getD_set_self _ _ _ hlt] at this
    exact absurd this (xor_mask_ne _ horig _ hk)

/-- Witness for the amended C2 at `bit_index = 8_000_000` on a freshly loaded
all-zero board. -/
theorem claim_C2_toggle_out_of_range_witness :
    (∀ j, SharedBitmap.togglePanics j ↔ NUM_CHUNKS * CHUNK_BITS ≤ j) ∧
    ¬ SharedBitmap.togglePanics 8000000 ∧
    NUM_SLIDERS ≤ 8000000 / 8 ∧ 8000000 / 8 < MAP_BYTES ∧
    (SharedBitmap.toggle (initState (List.replicate MAP_BYTES 0)) 8000000).bytes ≠
      (initState (List.replicate MAP_BYTES 0)).bytes :=
  claim_C2_toggle_out_of_range (initState (List.replicate MAP_BYTES 0)) 8000000
    (by rw [initState_bytes, List.length_replicate])
    (by
      simp only [initState_bytes]
      intro b hb
      rw [List.eq_of_mem_replicate hb]
      decide)
    (by decide) (by decide)

/-! ## C1: the quiescent aggregate invariant -/

/-- Effect of `toggle(0)` on a loaded state whose byte 0 is 0 and whose scans
are 0 (abstract form, instantiated at the all-zero board below). -/
theorem toggle_zero_state (l : List Nat) (hlt : 0 < l.length)
    (h0 : l.getD 0 0 = 0) (hpop : popSum l = 0) (hsum : byteSum l = 0) :
    (SharedBitmap.toggle (initState l) 0).bytes_sum = 0 ∧
    byteSum (SharedBitmap.toggle (initState l) 0).bytes = 1 ∧
    (SharedBitmap.toggle (initState l) 0).bits_set =
      popSum (SharedBitmap.toggle (initState l) 0).bytes := by
  have h08 : (0 : Nat) / 8 = 0 := by norm_num
  have h08m : (0 : Nat) % 8 = 0 := by norm_num
  have hone : (0 : Nat) ^^^ (1 <<< 0) = 1 := by decide
  have hsetp : popSum (l.set 0 1) = 1 := by
    have h := map_sum_set popcount 1 l 0 hlt
    rw [h0] at h
    have hp0 : popcount 0 = 0 := by decide
    have hp1 : popcount 1 = 1 := by decide
    rw [hp0, hp1] at h
    unfold popSum at hpop ⊢
    omega
  have hsetb : byteSum (l.set 0 1) = 1 := by
    have h := map_sum_set (fun b => b) 1 l 0 hlt
    rw [h0] at h
    simp only at h
    unfold byteSum at hsum ⊢
    omega
  have hby : (SharedBitmap.toggle (initState l) 0).bytes = l.set 0 1 := by
    rw [toggle_bytes, initState_bytes, h08, h08m, h0, hone]
  have hbits : (SharedBitmap.toggle (initState l) 0).bits_set = 1 := by
    rw [toggle_bits_set, initState_bytes, initState_bits_set, h08, h08m, h0, hpop]
    decide
  have hbsum : (SharedBitmap.toggle (initState l) 0).bytes_sum = 0 := by
    rw [toggle_bytes_sum, initState_bytes_sum, hsum]
  rw [hby, hbits, hbsum, hsetp, hsetb]
  exact ⟨rfl, rfl, rfl⟩

/-- C1 (code bug): after a single `toggle(0)` from a freshly loaded all-zero
board, `bits_set` equals the popcount of the mapped bytes (= 1), but
`bytes_sum` is still 0 while the bytes now sum to 1: `SharedBitmap::toggle`
never adjusts `bytes_sum`, so the claimed invariant fails for any sequence
containing a toggle. -/
theorem claim_C1_toggle_breaks_bytes_sum :
    (applyOps (initState (List.replicate MAP_BYTES 0)) [Op.toggle 0]).bytes_sum = 0 ∧
    byteSum (applyOps (initState (List.replicate MAP_BYTES 0)) [Op.toggle 0]).bytes = 1 ∧
    (applyOps (initState (List.replicate MAP_BYTES 0)) [Op.toggle 0]).bits_set =
      popSum (applyOps (initState (List.replicate MAP_BYTES 0)) [Op.toggle 0]).bytes := by
  have hlt : (0 : Nat) < (List.replicate MAP_BYTES (0 : Nat)).length := by
    rw [List.length_replicate]
    decide
  have h0 : (List.replicate MAP_BYTES (0 : Nat)).getD 0 0 = 0 := by
    rw [List.getD_eq_getElem _ 0 hlt]
    simp
  have hpop0 : popSum (List.replicate MAP_BYTES 0) = 0 := by
    unfold popSum
    rw [List.map_replicate]
    simp [popcount, popcountAux]
  have hsum0 : byteSum (List.replicate MAP_BYTES 0) = 0 := by
    unfold byteSum
    rw [List.map_replicate]
    simp
  exact toggle_zero_state (List.replicate MAP_BYTES 0) hlt h0 hpop0 hsum0

/-! ## Mutation log (`src/log.rs`)

`SystemTime` is modelled as `Int` nanoseconds relative to `UNIX_EPOCH`
(negative = before the epoch, where `duration_since` fails and
`map_or(0, ..)` yields 0, i.e. `Int.toNat`). -/

/-- `enum Record` from `log.rs`. -/
inductive Record where
  | setByte (time : Int) (offset : Nat) (value : Nat)
  | toggle (time : Int) (offset : Nat)
deriving Repr, DecidableEq

/-- `RECORD_SIZE = size_of::<u128>() + size_of::<u32>() + size_of::<u8>()`. -/
def RECORD_SIZE : Nat := 16 + 4 + 1

/-- `const TYPE_MASK: u32 = 1 << 31`. -/
def TYPE_MASK : Nat := 1 <<< 31

/-- `to_le_bytes` for a given byte width: little-endian byte list. -/
def leBytes (n : Nat) : Nat → List Nat
  | 0 => []
  | w + 1 => n % 256 :: leBytes (n / 256) w

/-- The `debug_assert_eq!(offset & TYPE_MASK, 0)` wellformedness of a record:
offsets are restricted to 31 bits (values are `u8` by type). -/
def Record.WF : Record → Prop
  | .setByte _ o v => o < 2 ^ 31 ∧ v < 256
  | .toggle _ o => o < 2 ^ 31

instance (r : Record) : Decidable r.WF := by
  cases r <;> simp only [Record.WF] <;> infer_instance

/-- `Record::to_record`: 21 little-endian bytes — 16 bytes of the u128
nanosecond timestamp (0 when before the epoch), 4 bytes of the u32 offset
(toggle sets the `TYPE_MASK` high bit), 1 value byte (0 for toggle). -/
def Record.to_record : Record → List Nat
  | .setByte time offset value =>
      leBytes time.toNat 16 ++ leBytes offset 4 ++ [value]
  | .toggle time offset =>
      leBytes time.toNat 16 ++ leBytes (offset ||| TYPE_MASK) 4 ++ [0]

/-- The timestamp field actually encoded (`map_or(0, |d| d.as_nanos())`). -/
def Record.timeDiff : Record → Nat
  | .setByte t _ _ => t.toNat
  | .toggle t _ => t.toNat

/-- The u32 word stored in bytes 16..20 (offset, with the tag bit for
toggles). -/
def Record.offsetWord : Record → Nat
  | .setByte _ o _ => o
  | .toggle _ o => o ||| TYPE_MASK

/-- The raw (untagged) offset of a record. -/
def Record.rawOffset : Record → Nat
  | .setByte _ o _ => o
  | .toggle _ o => o

/-- The value byte stored at offset 20 (0 for toggles). -/
def Record.recValue : Record → Nat
  | .setByte _ _ v => v
  | .toggle _ _ => 0

/-- Whether the record is a toggle. -/
def Record.isToggle : Record → Bool
  | .setByte _ _ _ => false
  | .toggle _ _ => true

theorem leBytes_length (n : Nat) : ∀ w, (leBytes n w).length = w
  | 0 => rfl
  | w + 1 => by
    simp only [leBytes, List.length_cons, leBytes_length (n / 256) w]

theorem leBytes_getD :
    ∀ (w : Nat) (n j : Nat), j < w → (leBytes n w).getD j 0 = n / 256 ^ j % 256
  | 0, n, j, h => by omega
  | w + 1, n, 0, _ => by simp [leBytes]
  | w + 1, n, j + 1, h => by
    have ih := leBytes_getD w (n / 256) j (by omega)
    simp only [leBytes, List.getD_cons_succ, ih, Nat.div_div_eq_div_mul]
    ring_nf

/-! ## Writer-loop state machine (`Log::_new` in `src/log.rs`)

The dedicated writer thread's loop body, as a pure step function over the
`BufWriter` buffer, the flushed file bytes, and the pending flush deadline
(`next_flush`, an `Instant` in nanoseconds). -/

structure WriterState where
  buffer : List Nat
  fileBytes : List Nat
  next_flush : Option Nat
  handleGen : Nat
deriving Repr, DecidableEq

/-- The events the writer loop reacts to: a queued record, a flush sentinel,
or a `recv_timeout` expiry (only possible in the `Buffered` state). -/
inductive WriterEvent where
  | record (r : Record)
  | flush
  | timeout
deriving Repr, DecidableEq

/-- One iteration of the writer loop at wall-clock instant `now` (ns):
* record → `handle` (append the 21 encoded bytes to the `BufWriter`), then
  `next_flush = Some(Instant::now() + Duration::from_secs(1))`;
* flush sentinel → flush the buffer to the file, `next_flush = None`;
* timeout → flush the buffer to the file, `next_flush = None`. -/
def writerStep (st : WriterState) (now : Nat) : WriterEvent → WriterState
  | .record r =>
      { st with
        buffer := st.buffer ++ r.to_record
        next_flush := some (now + 1000000000) }
  | .flush =>
      { st with
        buffer := []
        fileBytes := st.fileBytes ++ st.buffer
        next_flush := none }
  | .timeout =>
      { st with
        buffer := []
        fileBytes := st.fileBytes ++ st.buffer
        next_flush := none }

/-- Modelled from the spec: the reopen operation of the Log is missing from
`src/src/log.rs` (its caller `bitmap.log.re_open()` exists in
`src/src/main.rs`'s SIGHUP handler, but no `re_open` method or writer-loop
reopen message is present in the snapshot). Per the spec: "Any state +
reopen → flush, reopen file, retain state" — flush the buffered bytes,
close and re-open the file handle, and keep the rest of the writer state
(including any pending flush deadline). -/
def writerReopen (st : WriterState) : WriterState :=
  { st with
    buffer := []
    fileBytes := st.fileBytes ++ st.buffer
    handleGen := st.handleGen + 1 }

/-! ## C5: log record layout -/

theorem encoded_getD (t o v : Nat) :
    (leBytes t 16 ++ leBytes o 4 ++ [v]).length = 21 ∧
    (∀ j, j < 16 → (leBytes t 16 ++ leBytes o 4 ++ [v]).getD j 0 = t / 256 ^ j % 256) ∧
    (∀ j, j < 4 →
      (leBytes t 16 ++ leBytes o 4 ++ [v]).getD (16 + j) 0 = o / 256 ^ j % 256) ∧
    (leBytes t 16 ++ leBytes o 4 ++ [v]).getD 20 0 = v := by
  have hA : (leBytes t 16).length = 16 := leBytes_length t 16
  have hB : (leBytes o 4).length = 4 := leBytes_length o 4
  have hAB : (leBytes t 16 ++ leBytes o 4).length = 20 := by
    rw [List.length_append, hA, hB]
  refine ⟨?_, ?_, ?_, ?_⟩
  · simp [List.length_append, hA, hB]
  · intro j hj
    rw [List.getD_append _ _ 0 j (by omega),
      List.getD_append _ _ 0 j (by omega)]
    exact leBytes_getD 16 t j hj
  · intro j hj
    rw [List.getD_append _ _ 0 (16 + j) (by omega),
      List.getD_append_right _ _ 0 (16 + j) (by omega), hA]
    have he : 16 + j - 16 = j := by omega
    rw [he]
    exact leBytes_getD 4 o j hj
  · rw [List.getD_append_right _ _ 0 20 (by omega), hAB]
    rfl

theorem mod_pow31_lor_mask (o : Nat) (h : o < 2 ^ 31) :
    (o ||| 2 ^ 31) % 2 ^ 31 = o := by
  apply Nat.eq_of_testBit_eq
  intro i
  rw [Nat.testBit_mod_two_pow, Nat.testBit_lor]
  by_cases hi : i < 31
  · rw [Nat.testBit_two_pow_of_ne (by omega)]
    simp [hi]
  · have hlt : o < 2 ^ i :=
      lt_of_lt_of_le h (Nat.pow_le_pow_right (by norm_num) (by omega))
    rw [Nat.testBit_lt_two_pow hlt]
    simp [hi]

/-- C5: every encoded log record is exactly 21 bytes, little-endian: bytes
0..16 are the u128 nanoseconds since the epoch (0 when the time is before the
epoch), bytes 16..20 are the u32 offset whose high bit is the type tag
(1 = toggle, raw offset in the low 31 bits), byte 20 is the value (0 for
toggles); and the Toggle record at offset 0, time 2_000_000_000 ns encodes to
the concrete 21 bytes of the claim. -/
theorem claim_C5_record_layout (r : Record) (hwf : r.WF) :
    r.to_record.length = 21 ∧
    (∀ j, j < 16 → r.to_record.getD j 0 = r.timeDiff / 256 ^ j % 256) ∧
    (∀ j, j < 4 → r.to_record.getD (16 + j) 0 = r.offsetWord / 256 ^ j % 256) ∧
    r.to_record.getD 20 0 = r.recValue ∧
    r.offsetWord.testBit 31 = r.isToggle ∧
    r.offsetWord % 2 ^ 31 = r.rawOffset ∧
    Record.to_record (.toggle 2000000000 0) =
      [0, 148, 53, 119, 0, 0, 0, 0, 0, 0, 0, 0, 0, 0, 0, 0, 0, 0, 0, 128, 0] := by
  have hmask : TYPE_MASK = 2 ^ 31 := by decide
  cases r with
  | setByte t o v =>
    obtain ⟨ho, _⟩ := hwf
    have h := encoded_getD t.toNat o v
    simp only [Record.to_record, Record.timeDiff, Record.offsetWord,
      Record.recValue, Record.rawOffset, Record.isToggle]
    refine ⟨h.1, h.2.1, h.2.2.1, h.2.2.2, ?_, Nat.mod_eq_of_lt ho, by decide⟩
    exact Nat.testBit_lt_two_pow ho
  | toggle t o =>
    have ho : o < 2 ^ 31 := hwf
    have h := encoded_getD t.toNat (o ||| TYPE_MASK) 0
    simp only [Record.to_record, Record.timeDiff, Record.offsetWord,
      Record.recValue, Record.rawOffset, Record.isToggle, hmask]
    refine ⟨h.1, h.2.1, ?_, h.2.2.2, ?_, mod_pow31_lor_mask o ho, by decide⟩
    · have := h.2.2.1
      rw [hmask] at this
      exact this
    · rw [Nat.testBit_lor, @Nat.testBit_two_pow_self 31, Bool.or_true]

/-- Witness for C5 at the claim's own concrete record
(`Toggle, offset 0, time 2_000_000_000 ns`). -/
theorem claim_C5_record_layout_witness :
    Record.WF (.toggle 2000000000 0) ∧
    (Record.to_record (.toggle 2000000000 0)).length = 21 ∧
    (Record.to_record (.toggle 2000000000 0)).getD 0 0 =
      Record.timeDiff (.toggle 2000000000 0) / 256 ^ 0 % 256 ∧
    (Record.to_record (.toggle 2000000000 0)).getD (16 + 3) 0 =
      Record.offsetWord (.toggle 2000000000 0) / 256 ^ 3 % 256 ∧
    (Record.to_record (.toggle 2000000000 0)).getD 20 0 =
      Record.recValue (.toggle 2000000000 0) ∧
    (Record.offsetWord (.toggle 2000000000 0)).testBit 31 =
      Record.isToggle (.toggle 2000000000 0) ∧
    Record.offsetWord (.toggle 2000000000 0) % 2 ^ 31 =
      Record.rawOffset (.toggle 2000000000 0) ∧
    Record.to_record (.toggle 2000000000 0) =
      [0, 148, 53, 119, 0, 0, 0, 0, 0, 0, 0, 0, 0, 0, 0, 0, 0, 0, 0, 128, 0] := by
  have h := claim_C5_record_layout (.toggle 2000000000 0) (by decide)
  exact ⟨by decide, h.1, h.2.1 0 (by decide), h.2.2.1 3 (by decide), h.2.2.2.1,
    h.2.2.2.2.1, h.2.2.2.2.2.1, h.2.2.2.2.2.2⟩

/-! ## C8: the writer's flush deadline on a buffered record -/

/-- C8 counterexample: in the `Buffered` state with deadline 1 s, a record
arriving at 0.5 s (before the deadline) moves `next_flush` to 1.5 s — the
deadline is pushed back, not left unchanged. -/
theorem claim_C8_counterexample :
    (writerStep ⟨[], [], some 1000000000, 0⟩ 500000000
        (.record (.toggle 0 0))).next_flush = some 1500000000 ∧
    (500000000 : Nat) < 1000000000 ∧
    some (1500000000 : Nat) ≠ some (1000000000 : Nat) :=
  ⟨rfl, by decide, by decide⟩

/-- C8 amended: in the `Buffered` state (pending deadline `d`), a record
arriving at `now < d` is encoded and appended to the buffer (nothing is
flushed), and the flush deadline is reset to `now + 1 s` — i.e. 1 s after the
most recent record, not 1 s after the first record since the last flush. -/
theorem claim_C8_buffered_record (st : WriterState) (now d : Nat) (r : Record)
    (hst : st.next_flush = some d) (hlt : now < d) :
    (writerStep st now (.record r)).buffer = st.buffer ++ r.to_record ∧
    (writerStep st now (.record r)).fileBytes = st.fileBytes ∧
    (writerStep st now (.record r)).next_flush = some (now + 1000000000) :=
  ⟨rfl, rfl, rfl⟩

/-- Witness for the amended C8: empty buffer, deadline 1 s, record at time
0.5 s. -/
theorem claim_C8_buffered_record_witness :
    (writerStep ⟨[], [], some 1000000000, 0⟩ 500000000
        (.record (.toggle 0 0))).buffer =
      ([] : List Nat) ++ Record.to_record (.toggle 0 0) ∧
    (writerStep ⟨[], [], some 1000000000, 0⟩ 500000000
        (.record (.toggle 0 0))).fileBytes = ([] : List Nat) ∧
    (writerStep ⟨[], [], some 1000000000, 0⟩ 500000000
        (.record (.toggle 0 0))).next_flush = some (500000000 + 1000000000) :=
  claim_C8_buffered_record ⟨[], [], some 1000000000, 0⟩ 500000000 1000000000
    (.toggle 0 0) rfl (by decide)

/-! ## C9: log reopen (spec-modelled) -/

/-- C9: on reopen the writer flushes its buffer to the file, re-opens the
file handle, and retains its state (including any pending flush deadline).
The reopen path is absent from the snapshot's `log.rs` and is modelled from
the spec (see `writerReopen`). -/
theorem claim_C9_reopen (st : WriterState) :
    (writerReopen st).fileBytes = st.fileBytes ++ st.buffer ∧
    (writerReopen st).buffer = [] ∧
    (writerReopen st).handleGen = st.handleGen + 1 ∧
    (writerReopen st).next_flush = st.next_flush :=
  ⟨rfl, rfl, rfl, rfl⟩

/-! ## C7: the per-chunk coalescer's publish behaviour (`run_tasks`)

A `tokio::sync::watch` channel is a latched value plus a version counter;
receivers are woken exactly when the version is bumped. -/

structure WatchChannel where
  value : List Nat
  version : Nat
deriving Repr, DecidableEq

/-- `watch::Sender::send_modify`: applies the closure to the latched value
and unconditionally notifies all receivers (bumps the version), whether or
not the value changed. -/
def WatchChannel.send_modify (w : WatchChannel) (f : List Nat → List Nat) :
    WatchChannel :=
  { value := f w.value, version := w.version + 1 }

/-- One iteration of the coalescer loop body in `run_tasks`, after the
`notified()` wake and the rate-limit sleep:
`segment.watch.send_modify(|c| chunk.load(c))` — the closure overwrites the
latched value with the chunk's current bytes; `Chunk::load` returns `()` so
the change flag of `load_chunks` is discarded. -/
def coalescerPublish (w : WatchChannel) (chunkBytes : List Nat) : WatchChannel :=
  w.send_modify (fun _ => chunkBytes)

/-- A run of coalescer iterations over the chunk-byte snapshots it reads. -/
def coalescerRun (w : WatchChannel) (obs : List (List Nat)) : WatchChannel :=
  obs.foldl coalescerPublish w

/-- C7 counterexample: with the last-published snapshot equal to the current
chunk bytes (all-zero), the coalescer iteration still publishes — the watch
version is bumped and watchers are notified of an identical value. -/
theorem claim_C7_counterexample :
    (List.replicate 128 0 = (WatchChannel.mk (List.replicate 128 0) 0).value) ∧
    (coalescerPublish (WatchChannel.mk (List.replicate 128 0) 0)
        (List.replicate 128 0)).version ≠
      (WatchChannel.mk (List.replicate 128 0) 0).version ∧
    (coalescerPublish (WatchChannel.mk (List.replicate 128 0) 0)
        (List.replicate 128 0)).value =
      (WatchChannel.mk (List.replicate 128 0) 0).value :=
  ⟨rfl, by decide, rfl⟩

/-- C7 amended: the coalescer never skips a publish — every iteration calls
`send_modify`, which bumps the watch version (notifying all watchers) even
when the chunk bytes equal the last-published snapshot; over any run the
version grows by exactly the number of iterations and the latched value is
the last snapshot read. -/
theorem claim_C7_always_publishes (w : WatchChannel) (obs : List (List Nat)) :
    (coalescerRun w obs).version = w.version + obs.length ∧
    (coalescerRun w obs).value = obs.getLastD w.value := by
  induction obs generalizing w with
  | nil => exact ⟨rfl, rfl⟩
  | cons b obs ih =>
    have h := ih (coalescerPublish w b)
    refine ⟨?_, ?_⟩
    · rw [coalescerRun, List.foldl_cons]
      show (coalescerRun (coalescerPublish w b) obs).version = _
      rw [h.1]
      simp only [coalescerPublish, WatchChannel.send_modify, List.length_cons]
      omega
    · rw [coalescerRun, List.foldl_cons]
      show (coalescerRun (coalescerPublish w b) obs).value = _
      rw [h.2]
      cases obs with
      | nil => rfl
      | cons c obs => rfl

/-! ## C10: HTTP range validation (`range_validate` in `src/main.rs`) -/

/-- Rust `usize::next_multiple_of` (positive divisor). -/
def nextMultipleOf (a b : Nat) : Nat := divCeil a b * b

/-- `MAX_RANGE_BITS = NUM_CHECKBOXES.next_multiple_of(CHUNK_BITS)`. -/
def MAX_RANGE_BITS : Nat := nextMultipleOf NUM_CHECKBOXES CHUNK_BITS

inductive RangeError where
  | startAfterEnd
  | endTooLarge
  | rangeTooLarge
deriving Repr, DecidableEq

/-- `range_validate` from `main.rs`: rejects `start > end`, then
`end > NUM_CHECKBOXES`, then ranges whose chunk span exceeds
`MAX_RANGE_BITS`; otherwise returns `(start_chunk, end_chunk)`. -/
def range_validate (start fin : Nat) : Except RangeError (Nat × Nat) :=
  if start > fin then .error .startAfterEnd
  else if fin > NUM_CHECKBOXES then .error .endTooLarge
  else
    let start_chunk := start / CHUNK_BITS
    let end_chunk := divCeil fin CHUNK_BITS
    if (end_chunk - start_chunk) * CHUNK_BITS > MAX_RANGE_BITS then
      .error .rangeTooLarge
    else
      .ok (start_chunk, end_chunk)

/-- C10: the oversized-range branch of `range_validate` is unreachable — for
any `start ≤ end ≤ NUM_CHECKBOXES` the chunk span is at most
`MAX_RANGE_BITS` — so validation fails exactly on `start > end` or
`end > NUM_CHECKBOXES`, and succeeds otherwise. -/
theorem claim_C10_range_validate (start fin : Nat) :
    range_validate start fin ≠ .error .rangeTooLarge ∧
    (range_validate start fin =
        .ok (start / CHUNK_BITS, divCeil fin CHUNK_BITS) ↔
      start ≤ fin ∧ fin ≤ NUM_CHECKBOXES) := by
  have hCB : CHUNK_BITS = 1024 := by decide
  have hNC : NUM_CHECKBOXES = 8000000 := by decide
  have hMR : MAX_RANGE_BITS = 8000512 := by decide
  by_cases h1 : start > fin
  · unfold range_validate
    rw [if_pos h1]
    exact ⟨(fun h => nomatch h),
      (fun h => nomatch h), fun h => absurd h1 (by omega)⟩
  · by_cases h2 : fin > NUM_CHECKBOXES
    · unfold range_validate
      rw [if_neg h1, if_pos h2]
      exact ⟨(fun h => nomatch h),
        (fun h => nomatch h), fun h => absurd h2 (by omega)⟩
    · have h3 : ¬ ((divCeil fin CHUNK_BITS - start / CHUNK_BITS) * CHUNK_BITS >
          MAX_RANGE_BITS) := by
        unfold divCeil
        rw [hCB, hMR]
        rw [hNC] at h2
        omega
      unfold range_validate
      rw [if_neg h1, if_neg h2]
      simp only []
      rw [if_neg h3]
      exact ⟨(fun h => nomatch h), (fun _ => ⟨by omega, by omega⟩), fun _ => rfl⟩

end OneMillionSliders
